import Mathlib

/-!
Verification of the euler-files sync engine against its design spec.

The Python source is shallowly embedded: pure decision logic becomes Lean
functions, filesystem and clock effects become explicit oracle parameters,
and Python exceptions become `Except` values.  Timestamps and mtimes are
modelled as integers (only their ordering matters to the embedded logic),
and wall-clock instants in the lock poll loop as rationals.
-/

set_option autoImplicit false

namespace EulerFiles

/-- The Python exception kinds that can escape the embedded code paths. -/
inductive PyExc where
  | attributeError
  | typeError
  | osError
  deriving DecidableEq, Repr

/-- JSON values as produced by a successful `json.loads`.  Numbers are
modelled as integers: the embedded logic only compares them. -/
inductive Json where
  | null
  | bool (b : Bool)
  | num (n : Int)
  | str (s : String)
  | arr (elems : List Json)
  | obj (fields : List (String × Json))

/-- First binding of `key` in a field list, or the default (dict lookup). -/
def getFieldD (fields : List (String × Json)) (key : String) (dflt : Json) : Json :=
  match fields.find? (fun kv => kv.1 == key) with
  | some kv => kv.2
  | none => dflt

/-- Python `d.get(key, default)`: only dict values have a `.get` attribute;
on every other value the attribute access raises `AttributeError` (which the
source around `json.loads` does not catch). -/
def Json.dictGet : Json → String → Json → Except PyExc Json
  | Json.obj fields, key, dflt => Except.ok (getFieldD fields key dflt)
  | _, _, _ => Except.error PyExc.attributeError

/-- Whether a JSON value behaves as a Python number (bools coerce to 0/1). -/
def Json.isNumeric : Json → Bool
  | Json.num _ => true
  | Json.bool _ => true
  | _ => false

/-- Numeric value of a JSON leaf, with Python's bool-to-int coercion;
0 for non-numbers (only used below where `isNumeric` holds). -/
def Json.numVal : Json → Int
  | Json.num n => n
  | Json.bool b => if b then 1 else 0
  | _ => 0

/-- Python arithmetic/comparison between a float and a JSON-decoded value:
numbers and bools participate, everything else raises `TypeError`. -/
def Json.asNum : Json → Except PyExc Int
  | Json.num n => Except.ok n
  | Json.bool b => Except.ok (if b then 1 else 0)
  | _ => Except.error PyExc.typeError

/-- `markers.should_skip`, with the filesystem and clock as oracles:
`markerExists` is `marker_path.exists()`; `markerParse` is the outcome of
`json.loads(marker_path.read_text())` (`none` when that raised
`JSONDecodeError`/`OSError`, which the source catches); `now` is
`time.time()`; `currentMtime` is the outcome of `_get_dir_mtime(source)`
(`none` when it raised `OSError`, which the source catches). -/
def should_skip (markerExists : Bool) (markerParse : Option Json)
    (now skipIfFreshSeconds : Int) (currentMtime : Option Int) :
    Except PyExc Bool :=
  if markerExists = false then Except.ok false
  else
    match markerParse with
    | none => Except.ok false
    | some markerData =>
      match markerData.dictGet ("synced_at") (Json.num 0) with
      | Except.error e => Except.error e
      | Except.ok markerTime =>
        match markerData.dictGet ("source_mtime") (Json.num 0) with
        | Except.error e => Except.error e
        | Except.ok markerSourceMtime =>
          match markerTime.asNum with
          | Except.error e => Except.error e
          | Except.ok mt =>
            if now - mt > skipIfFreshSeconds then Except.ok false
            else
              match currentMtime with
              | none => Except.ok false
              | some cur =>
                match markerSourceMtime.asNum with
                | Except.error e => Except.error e
                | Except.ok msm =>
                  if cur > msm then Except.ok false else Except.ok true

/-- One observed step of `path.iterdir()` + `child.stat()` inside
`_get_dir_mtime`'s loop. -/
inductive ChildEvent where
  | mtime (m : Int)
  | permError
  | otherOsError
  deriving DecidableEq, Repr

/-- The `for child in path.iterdir()` loop of `_get_dir_mtime`:
`PermissionError` is caught and stops the loop, other `OSError`s escape. -/
def getDirMtimeLoop (acc : Int) : List ChildEvent → Except PyExc Int
  | [] => Except.ok acc
  | ChildEvent.mtime c :: rest =>
      getDirMtimeLoop (if c > acc then c else acc) rest
  | ChildEvent.permError :: _ => Except.ok acc
  | ChildEvent.otherOsError :: _ => Except.error PyExc.osError

/-- `markers._get_dir_mtime`: the directory's own `stat` happens outside the
`try`, so its failure escapes; the child loop catches `PermissionError`. -/
def _get_dir_mtime (selfStat : Except PyExc Int) (children : List ChildEvent) :
    Except PyExc Int :=
  match selfStat with
  | Except.error e => Except.error e
  | Except.ok m => getDirMtimeLoop m children

/-- The `source_mtime` value recorded by `markers.write_marker`: the computed
fingerprint, degraded to 0 when the fingerprint computation raised `OSError`. -/
def write_marker_source_mtime (fingerprint : Except PyExc Int) : Int :=
  match fingerprint with
  | Except.ok m => m
  | Except.error _ => 0

/-- The JSON record `markers.write_marker` writes. -/
def write_marker (now : Int) (fingerprint : Except PyExc Int)
    (varName sourceStr : String) : Json :=
  Json.obj
    [(("synced_at" : String), Json.num now),
     (("source_mtime" : String), Json.num (write_marker_source_mtime fingerprint)),
     (("var_name" : String), Json.str varName),
     (("source" : String), Json.str sourceStr)]

/-- Whether a field, when present, holds a Python number. -/
def fieldIsNumeric (fields : List (String × Json)) (key : String) : Bool :=
  match fields.find? (fun kv => kv.1 == key) with
  | some kv => kv.2.isNumeric
  | none => true

/-- The marker shapes on which Python's `should_skip` completes without
raising: a JSON object whose `synced_at` and `source_mtime` fields, when
present, are numbers.  Markers written by `write_marker` have this shape. -/
def markerWellFormed : Json → Bool
  | Json.obj fields =>
      fieldIsNumeric fields ("synced_at") && fieldIsNumeric fields ("source_mtime")
  | _ => false

/-- Defaulted numeric field of a marker object (0 when absent). -/
def getNumD (md : Json) (key : String) : Int :=
  match md with
  | Json.obj fields => (getFieldD fields key (Json.num 0)).numVal
  | _ => 0

/-! ## Copy Invoker (`rsync.py`) -/

/-- Python `str(path).rstrip("/")`: remove every trailing slash. -/
def rstripSlash (s : String) : String :=
  String.mk ((s.data.reverse.dropWhile (fun c => c == ('/' : Char))).reverse)

/-- The argument list `run_rsync` builds for the external copy tool. -/
def run_rsync_cmd (source target : String) (extraArgs : List String)
    (verbose delete : Bool) : List String :=
  let cmd : List String :=
    ["rsync", "-a", "--info=progress2", "--info=name0", "--human-readable"]
  let cmd := if delete then cmd ++ [("--delete" : String)] else cmd
  let cmd := cmd ++ extraArgs
  let cmd := if verbose then cmd ++ [("--verbose" : String)] else cmd
  cmd ++ [rstripSlash source ++ "/", rstripSlash target ++ "/"]

/-- Outcome of `run_rsync` after the subprocess exits: a normal return with
the stderr warnings it printed, or a raised `RsyncError` with its message. -/
inductive RsyncResult where
  | ok (warnings : List String)
  | raised (msg : String)
  deriving DecidableEq, Repr

/-- The exit-code handling at the end of `run_rsync`. -/
def run_rsync_outcome (returncode : Int) : RsyncResult :=
  if returncode ≠ 0 then
    if returncode = 23 ∨ returncode = 24 then
      RsyncResult.ok
        [("[WARN] rsync exited with code " ++ toString returncode ++
          " (partial transfer / vanished files). Continuing.")]
    else
      RsyncResult.raised ("rsync failed with exit code " ++ toString returncode)
  else RsyncResult.ok []

/-- Number of trailing path separators of a string. -/
def trailingSlashCount (s : String) : Nat :=
  (s.data.reverse.takeWhile (fun c => c == ('/' : Char))).length

/-! ## Shell quoting (`sync._shell_quote`) -/

/-- The single-quote character (written via its code point). -/
def squoteChar : Char := Char.ofNat 39

/-- A character that `_shell_quote` passes through unescaped: alphanumeric
(modelled as ASCII alphanumeric) or one of `/`, `-`, `_`, `.`. -/
def isSafeChar (c : Char) : Bool :=
  c.isAlphanum || c == ('/' : Char) || c == ('-' : Char) ||
    c == ('_' : Char) || c == ('.' : Char)

/-- The four-character sequence Python substitutes for each embedded single
quote: quote, backslash, quote, quote. -/
def quoteEscSeq : List Char := [squoteChar, '\\', squoteChar, squoteChar]

/-- Python `s.replace("'", "'\\''")` for the one-character pattern:
per-character substitution. -/
def replaceQuoteList : List Char → List Char
  | [] => []
  | c :: cs =>
      (if c == squoteChar then quoteEscSeq else [c]) ++ replaceQuoteList cs

/-- A string made of one single-quote character. -/
def squote : String := String.mk [squoteChar]

/-- `sync._shell_quote`. -/
def _shell_quote (s : String) : String :=
  if s.data.all isSafeChar then s
  else squote ++ String.mk (replaceQuoteList s.data) ++ squote

/-! ## Lock Manager (`lock.py`) -/

/-- The error `acquire_lock` raises on timeout, carrying the lock path and
the timeout value (both appear in the raised message). -/
structure LockTimeout where
  path : String
  timeout : ℚ
  deriving DecidableEq

/-- The poll loop of `acquire_lock` under the assumption that every
non-blocking `flock` attempt fails.  `trace k` is the elapsed wall-clock
time (`time.monotonic() - start`) observed at the `k`-th failed attempt;
the `time.sleep(min(poll_interval, remaining))` between attempts is
reflected as a constraint on `trace` in the theorems.  The `fuel` argument
bounds the unrolling; the loop returns the list of sleep durations it
requested and the raised timeout error, or `none` when fuel ran out before
the timeout check fired. -/
def lockLoop (path : String) (timeout pollInterval : ℚ) (trace : ℕ → ℚ) :
    ℕ → ℕ → List ℚ × Option LockTimeout
  | _, 0 => ([], none)
  | k, fuel + 1 =>
      let elapsed := trace k
      if timeout ≤ elapsed then ([], some { path := path, timeout := timeout })
      else
        let wait := min pollInterval (timeout - elapsed)
        let rest := lockLoop path timeout pollInterval trace (k + 1) fuel
        (wait :: rest.1, rest.2)

/-! ## Per-resource orchestration (`sync._sync_one_var`, `push.run_push`) -/

/-- Observable side effects of one resource's processing, in program order. -/
inductive Event where
  | warnMissingSource
  | mkdirTarget
  | skipFresh
  | skipMissingScratch
  | dryRunNote
  | lockAcquired
  | rsyncReturned
  | markerWritten
  deriving DecidableEq, Repr

/-- The exceptions that one resource's processing can raise (captured by the
orchestrator and turned into a per-resource error). -/
inductive SyncErr where
  | lockTimeoutErr
  | copyErr (msg : String)
  | skipRaised (e : PyExc)
  deriving DecidableEq, Repr

/-- `sync._sync_one_var`, with filesystem/lock/subprocess oracles:
`sourceExists` is `source.exists()`; `skipRes` the outcome of
`should_skip` (an `Except`, since it can raise); `lockOk` whether
`acquire_lock` succeeded within its timeout; `rsyncRes` the outcome of
`run_rsync`.  Returns the diagnostic events in order and the returned
scratch path or the escaping exception. -/
def _sync_one_var (sourceExists : Bool) (force : Bool)
    (skipRes : Except PyExc Bool) (dryRun : Bool) (lockOk : Bool)
    (rsyncRes : RsyncResult) (target : String) :
    List Event × Except SyncErr String :=
  if sourceExists = false then
    ([Event.warnMissingSource, Event.mkdirTarget], Except.ok target)
  else
    match (if force then Except.ok false else skipRes) with
    | Except.error e => ([], Except.error (SyncErr.skipRaised e))
    | Except.ok doSkip =>
      if doSkip then ([Event.skipFresh], Except.ok target)
      else if dryRun then ([Event.dryRunNote], Except.ok target)
      else if lockOk = false then ([], Except.error SyncErr.lockTimeoutErr)
      else
        match rsyncRes with
        | RsyncResult.raised m =>
            ([Event.lockAcquired, Event.mkdirTarget],
             Except.error (SyncErr.copyErr m))
        | RsyncResult.ok _ =>
            ([Event.lockAcquired, Event.mkdirTarget, Event.rsyncReturned,
              Event.markerWritten],
             Except.ok target)

/-- The body of `push.run_push`'s per-variable loop (scratch is the copy
source, the persistent path the copy target; no skip-freshness check). -/
def run_push_one_var (scratchExists : Bool) (dryRun : Bool) (lockOk : Bool)
    (rsyncRes : RsyncResult) : List Event × Except SyncErr Unit :=
  if scratchExists = false then ([Event.skipMissingScratch], Except.ok ())
  else if dryRun then ([Event.dryRunNote], Except.ok ())
  else if lockOk = false then ([], Except.error SyncErr.lockTimeoutErr)
  else
    match rsyncRes with
    | RsyncResult.raised m =>
        ([Event.lockAcquired, Event.mkdirTarget],
         Except.error (SyncErr.copyErr m))
    | RsyncResult.ok _ =>
        ([Event.lockAcquired, Event.mkdirTarget, Event.rsyncReturned,
          Event.markerWritten],
         Except.ok ())

/-! ## Structured stdout of `sync.run_sync`

`run_sync` collects each future's result into `results[name]` (or appends to
`errors` when it raised), then the only `print` that targets stdout is the
loop `for name in sorted(results): print(f"export {name}=...")`.  The model
takes the per-resource outcomes in completion order. -/

/-- The structured stdout line for one successful resource. -/
def exportLine (name val : String) : String :=
  "export " ++ name ++ "=" ++ _shell_quote val

/-- The `results` dict: resources whose processing returned a path. -/
def successes (outcomes : List (String × Except SyncErr String)) :
    List (String × String) :=
  outcomes.filterMap (fun p =>
    match p.2 with
    | Except.ok v => some (p.1, v)
    | Except.error _ => none)

/-- Lexicographic code-point comparison of character lists (the order Python
string comparison uses). -/
def strLeList : List Char → List Char → Bool
  | [], _ => true
  | _ :: _, [] => false
  | c :: cs, d :: ds =>
      if c.toNat < d.toNat then true
      else if d.toNat < c.toNat then false
      else strLeList cs ds

/-- Python string `<=`: lexicographic by code point. -/
def strLe (a b : String) : Bool := strLeList a.data b.data

/-- Strict version of `strLe`. -/
def strLt (a b : String) : Bool := strLe a b && !(a == b)

/-- Insertion into a name-sorted list. -/
def insertByName (x : String × String) :
    List (String × String) → List (String × String)
  | [] => [x]
  | y :: ys => if strLe x.1 y.1 then x :: y :: ys else y :: insertByName x ys

/-- Python `sorted(results)`: sort the name/path pairs by name. -/
def sortByName (l : List (String × String)) : List (String × String) :=
  l.foldr insertByName []

/-- Everything `run_sync` prints to stdout, in order: one export line per
entry of `results`, iterated in sorted-name order.  All other output in
`run_sync` goes through `_err`, i.e. to stderr. -/
def run_sync_stdout (outcomes : List (String × Except SyncErr String)) :
    List String :=
  (sortByName (successes outcomes)).map (fun p => exportLine p.1 p.2)

/-! ## Lemmas about the marker store -/

theorem asNum_of_isNumeric (j : Json) (h : j.isNumeric = true) :
    j.asNum = Except.ok j.numVal := by
  cases j <;> simp_all [Json.isNumeric, Json.asNum, Json.numVal]

theorem getFieldD_isNumeric (fields : List (String × Json)) (key : String)
    (h : fieldIsNumeric fields key = true) :
    (getFieldD fields key (Json.num 0)).isNumeric = true := by
  unfold fieldIsNumeric at h
  unfold getFieldD
  cases hf : fields.find? (fun kv => kv.1 == key) with
  | none => simp [Json.isNumeric]
  | some kv => rw [hf] at h; exact h

theorem should_skip_wf (fields : List (String × Json)) (now window cur : Int)
    (h1 : fieldIsNumeric fields ("synced_at") = true)
    (h2 : fieldIsNumeric fields ("source_mtime") = true) :
    should_skip true (some (Json.obj fields)) now window (some cur) =
      Except.ok (decide (now - getNumD (Json.obj fields) ("synced_at") ≤ window) &&
        decide (cur ≤ getNumD (Json.obj fields) ("source_mtime"))) := by
  unfold should_skip
  simp only [Json.dictGet,
    asNum_of_isNumeric _ (getFieldD_isNumeric _ _ h1),
    asNum_of_isNumeric _ (getFieldD_isNumeric _ _ h2)]
  unfold getNumD
  by_cases hA : now - (getFieldD fields ("synced_at") (Json.num 0)).numVal > window
  · rw [if_pos hA]
    have hA' : ¬ (now - (getFieldD fields ("synced_at") (Json.num 0)).numVal ≤ window) := by
      omega
    simp [hA']
  · rw [if_neg hA]
    have hA' : now - (getFieldD fields ("synced_at") (Json.num 0)).numVal ≤ window := by
      omega
    by_cases hB : cur > (getFieldD fields ("source_mtime") (Json.num 0)).numVal
    · rw [if_pos hB]
      have hB' : ¬ (cur ≤ (getFieldD fields ("source_mtime") (Json.num 0)).numVal) := by
        omega
      simp [hB']
    · rw [if_neg hB]
      have hB' : cur ≤ (getFieldD fields ("source_mtime") (Json.num 0)).numVal := by
        omega
      simp [hA', hB']

/-- C1: `should_skip` returns true exactly when a marker exists, parses,
`now - synced_at` is within the freshness window, and the current
fingerprint does not exceed the recorded one; in particular a strictly
larger current fingerprint forces a false result even inside the window.
(Stated for markers of the shape the program itself writes, on which
`should_skip` completes without raising.) -/
theorem should_skip_fresh_and_unchanged
    (markerExists : Bool) (markerParse : Option Json) (now window cur : Int)
    (hwf : ∀ md, markerParse = some md → markerWellFormed md = true) :
    (should_skip markerExists markerParse now window (some cur) = Except.ok true ↔
      (markerExists = true ∧ ∃ md, markerParse = some md ∧
        now - getNumD md ("synced_at") ≤ window ∧
        cur ≤ getNumD md ("source_mtime"))) ∧
    (∀ md, markerParse = some md → getNumD md ("source_mtime") < cur →
      should_skip markerExists markerParse now window (some cur) =
        Except.ok false) := by
  cases markerExists with
  | false => simp [should_skip]
  | true =>
    cases markerParse with
    | none => simp [should_skip]
    | some md =>
      have hw := hwf md rfl
      cases md with
      | obj fields =>
        have h1 : fieldIsNumeric fields ("synced_at") = true := by
          simp [markerWellFormed] at hw; exact hw.1
        have h2 : fieldIsNumeric fields ("source_mtime") = true := by
          simp [markerWellFormed] at hw; exact hw.2
        rw [should_skip_wf fields now window cur h1 h2]
        constructor
        · constructor
          · intro h
            simp only [Except.ok.injEq, Bool.and_eq_true, decide_eq_true_eq] at h
            exact ⟨rfl, Json.obj fields, rfl, h.1, h.2⟩
          · rintro ⟨-, md, hmd, hfresh, hcur⟩
            cases hmd
            simp [hfresh, hcur]
        · intro md hmd hlt
          cases hmd
          have : ¬ (cur ≤ getNumD (Json.obj fields) ("source_mtime")) := by omega
          simp [this]
      | null => simp [markerWellFormed] at hw
      | bool b => simp [markerWellFormed] at hw
      | num n => simp [markerWellFormed] at hw
      | str s => simp [markerWellFormed] at hw
      | arr l => simp [markerWellFormed] at hw

/-- Witness for C1: a fresh, unchanged, well-formed marker makes
`should_skip` return true. -/
theorem should_skip_fresh_and_unchanged_witness :
    should_skip true
      (some (Json.obj [(("synced_at" : String), Json.num 100),
                       (("source_mtime" : String), Json.num 50)]))
      200 3600 (some 50) = Except.ok true :=
  (should_skip_fresh_and_unchanged true
      (some (Json.obj [(("synced_at" : String), Json.num 100),
                       (("source_mtime" : String), Json.num 50)]))
      200 3600 50 (by intro md h; cases h; decide)).1.mpr
    ⟨rfl, Json.obj [(("synced_at" : String), Json.num 100),
                    (("source_mtime" : String), Json.num 50)],
      rfl, by decide, by decide⟩

/-- C7: the claim that `should_skip` never raises on any marker content is
violated by the code: a marker holding valid JSON that is not an object
(here, the array `[]`) makes `marker_data.get("synced_at", 0)` raise
`AttributeError`, which the `except (json.JSONDecodeError, OSError)` clause
does not catch. -/
theorem should_skip_raises_on_json_array :
    should_skip true (some (Json.arr [])) 0 3600 (some 0) =
      Except.error PyExc.attributeError := rfl

/-! ## Lemmas about the fingerprint computation -/

theorem getDirMtimeLoop_perm_stops (visited : List Int) (rest : List ChildEvent)
    (acc : Int) :
    getDirMtimeLoop acc (visited.map ChildEvent.mtime ++ ChildEvent.permError :: rest) =
      Except.ok (visited.foldl (fun a c => if c > a then c else a) acc) := by
  induction visited generalizing acc with
  | nil => rfl
  | cons c cs ih => simp [getDirMtimeLoop, ih]

theorem foldl_mtime_max_spec (acc : Int) (l : List Int) :
    acc ≤ l.foldl (fun a c => if c > a then c else a) acc ∧
    (∀ c ∈ l, c ≤ l.foldl (fun a c => if c > a then c else a) acc) ∧
    (l.foldl (fun a c => if c > a then c else a) acc = acc ∨
      l.foldl (fun a c => if c > a then c else a) acc ∈ l) := by
  induction l generalizing acc with
  | nil => simp
  | cons c cs ih =>
    have h := ih (if c > acc then c else acc)
    by_cases hc : c > acc
    · simp only [List.foldl_cons, if_pos hc] at h ⊢
      refine ⟨by omega, ?_, ?_⟩
      · intro d hd
        rcases List.mem_cons.mp hd with rfl | hd
        · exact h.1
        · exact h.2.1 d hd
      · rcases h.2.2 with he | he
        · exact Or.inr (List.mem_cons.mpr (Or.inl he))
        · exact Or.inr (List.mem_cons.mpr (Or.inr he))
    · simp only [List.foldl_cons, if_neg hc] at h ⊢
      refine ⟨h.1, ?_, ?_⟩
      · intro d hd
        rcases List.mem_cons.mp hd with rfl | hd
        · omega
        · exact h.2.1 d hd
      · rcases h.2.2 with he | he
        · exact Or.inl he
        · exact Or.inr (List.mem_cons.mpr (Or.inr he))

/-- C10: when the directory's own stat succeeds and the child listing raises
`PermissionError` after some children were visited, `_get_dir_mtime` does not
raise and returns the maximum of the directory's own mtime and the visited
children's mtimes; `write_marker` then records exactly that partial
fingerprint (not the degraded 0). -/
theorem get_dir_mtime_partial_on_perm_error (selfM : Int) (visited : List Int)
    (rest : List ChildEvent) :
    ∃ m, _get_dir_mtime (Except.ok selfM)
        (visited.map ChildEvent.mtime ++ ChildEvent.permError :: rest) =
        Except.ok m ∧
      selfM ≤ m ∧ (∀ c ∈ visited, c ≤ m) ∧ (m = selfM ∨ m ∈ visited) ∧
      write_marker_source_mtime (_get_dir_mtime (Except.ok selfM)
        (visited.map ChildEvent.mtime ++ ChildEvent.permError :: rest)) = m ∧
      ∀ now varName sourceStr,
        getNumD (write_marker now (_get_dir_mtime (Except.ok selfM)
            (visited.map ChildEvent.mtime ++ ChildEvent.permError :: rest))
            varName sourceStr) ("source_mtime") = m := by
  have hrun : _get_dir_mtime (Except.ok selfM)
      (visited.map ChildEvent.mtime ++ ChildEvent.permError :: rest) =
      Except.ok (visited.foldl (fun a c => if c > a then c else a) selfM) :=
    getDirMtimeLoop_perm_stops visited rest selfM
  refine ⟨visited.foldl (fun a c => if c > a then c else a) selfM, hrun, ?_, ?_, ?_, ?_, ?_⟩
  · exact (foldl_mtime_max_spec selfM visited).1
  · exact (foldl_mtime_max_spec selfM visited).2.1
  · exact (foldl_mtime_max_spec selfM visited).2.2
  · rw [hrun]
    rfl
  · intro now varName sourceStr
    rw [hrun]
    rfl

/-- Witness for C10 at a concrete directory: own mtime 5, children 3 and 9
visited before the permission error, one unreadable child behind it. -/
theorem get_dir_mtime_partial_on_perm_error_witness :
    ∃ m, _get_dir_mtime (Except.ok 5)
        ([3, 9].map ChildEvent.mtime ++ ChildEvent.permError :: [ChildEvent.otherOsError]) =
        Except.ok m ∧
      5 ≤ m ∧ (∀ c ∈ [(3 : Int), 9], c ≤ m) ∧ (m = 5 ∨ m ∈ [(3 : Int), 9]) ∧
      write_marker_source_mtime (_get_dir_mtime (Except.ok 5)
        ([3, 9].map ChildEvent.mtime ++ ChildEvent.permError :: [ChildEvent.otherOsError])) = m ∧
      ∀ now varName sourceStr,
        getNumD (write_marker now (_get_dir_mtime (Except.ok 5)
            ([3, 9].map ChildEvent.mtime ++ ChildEvent.permError :: [ChildEvent.otherOsError]))
            varName sourceStr) ("source_mtime") = m :=
  get_dir_mtime_partial_on_perm_error 5 [3, 9] [ChildEvent.otherOsError]

/-! ## Copy Invoker exit codes -/

/-- C5: exit code 0 returns normally with no warning; 23 and 24 log a
warning and return normally; every other code raises an `RsyncError` whose
message carries the exit code. -/
theorem run_rsync_exit_code_policy (c : Int) :
    (c = 0 → run_rsync_outcome c = RsyncResult.ok []) ∧
    (c = 23 ∨ c = 24 → run_rsync_outcome c =
      RsyncResult.ok [("[WARN] rsync exited with code " ++ toString c ++
        " (partial transfer / vanished files). Continuing.")]) ∧
    (c ≠ 0 → c ≠ 23 → c ≠ 24 → run_rsync_outcome c =
      RsyncResult.raised ("rsync failed with exit code " ++ toString c)) := by
  refine ⟨?_, ?_, ?_⟩
  · rintro rfl
    rfl
  · rintro (rfl | rfl) <;> rfl
  · intro h0 h23 h24
    unfold run_rsync_outcome
    rw [if_pos h0, if_neg (by tauto)]

/-- Witness for C5 at exit codes 0, 24 and 5. -/
theorem run_rsync_exit_code_policy_witness :
    run_rsync_outcome 0 = RsyncResult.ok [] ∧
    run_rsync_outcome 24 = RsyncResult.ok
      [("[WARN] rsync exited with code " ++ toString (24 : Int) ++
        " (partial transfer / vanished files). Continuing.")] ∧
    run_rsync_outcome 5 =
      RsyncResult.raised ("rsync failed with exit code " ++ toString (5 : Int)) :=
  ⟨(run_rsync_exit_code_policy 0).1 rfl,
   (run_rsync_exit_code_policy 24).2.1 (Or.inr rfl),
   (run_rsync_exit_code_policy 5).2.2 (by decide) (by decide) (by decide)⟩

/-! ## Marker-write ordering in the orchestrator and the reverse push -/

/-- C2: in `_sync_one_var` and in `run_push`'s per-variable body, a marker is
written only when `run_rsync` returned without raising, and the marker-write
event strictly follows the copy's return; a missing source (or scratch),
a freshness skip, a dry run, a lock timeout, or a raised copy error all
leave the marker unwritten. -/
theorem marker_only_after_copy_success :
    (∀ (sourceExists force : Bool) (skipRes : Except PyExc Bool)
       (dryRun lockOk : Bool) (rsyncRes : RsyncResult) (target : String),
      (Event.markerWritten ∈ (_sync_one_var sourceExists force skipRes dryRun lockOk rsyncRes target).1 →
        (∃ w, rsyncRes = RsyncResult.ok w) ∧
        ∃ pre, (_sync_one_var sourceExists force skipRes dryRun lockOk rsyncRes target).1 =
          pre ++ [Event.rsyncReturned, Event.markerWritten]) ∧
      (sourceExists = false →
        Event.markerWritten ∉ (_sync_one_var sourceExists force skipRes dryRun lockOk rsyncRes target).1) ∧
      (force = false → skipRes = Except.ok true →
        Event.markerWritten ∉ (_sync_one_var sourceExists force skipRes dryRun lockOk rsyncRes target).1) ∧
      (dryRun = true →
        Event.markerWritten ∉ (_sync_one_var sourceExists force skipRes dryRun lockOk rsyncRes target).1) ∧
      (lockOk = false →
        Event.markerWritten ∉ (_sync_one_var sourceExists force skipRes dryRun lockOk rsyncRes target).1) ∧
      (∀ m, rsyncRes = RsyncResult.raised m →
        Event.markerWritten ∉ (_sync_one_var sourceExists force skipRes dryRun lockOk rsyncRes target).1)) ∧
    (∀ (scratchExists dryRun lockOk : Bool) (rsyncRes : RsyncResult),
      (Event.markerWritten ∈ (run_push_one_var scratchExists dryRun lockOk rsyncRes).1 →
        (∃ w, rsyncRes = RsyncResult.ok w) ∧
        ∃ pre, (run_push_one_var scratchExists dryRun lockOk rsyncRes).1 =
          pre ++ [Event.rsyncReturned, Event.markerWritten]) ∧
      (scratchExists = false →
        Event.markerWritten ∉ (run_push_one_var scratchExists dryRun lockOk rsyncRes).1) ∧
      (dryRun = true →
        Event.markerWritten ∉ (run_push_one_var scratchExists dryRun lockOk rsyncRes).1) ∧
      (lockOk = false →
        Event.markerWritten ∉ (run_push_one_var scratchExists dryRun lockOk rsyncRes).1) ∧
      (∀ m, rsyncRes = RsyncResult.raised m →
        Event.markerWritten ∉ (run_push_one_var scratchExists dryRun lockOk rsyncRes).1)) := by
  constructor
  · intro sourceExists force skipRes dryRun lockOk rsyncRes target
    cases sourceExists <;> cases force <;> cases dryRun <;> cases lockOk <;>
      rcases skipRes with e | b <;> try cases b
    all_goals cases rsyncRes
    all_goals
      simp only [_sync_one_var, Bool.false_eq_true, Bool.true_eq_false, if_true, if_false,
        ite_true, ite_false, reduceIte]
    all_goals
      refine ⟨?_, ?_, ?_, ?_, ?_, ?_⟩ <;>
        first
          | (intro h; exact absurd h (by decide))
          | (intro h; exact ⟨⟨_, rfl⟩, [Event.lockAcquired, Event.mkdirTarget], rfl⟩)
          | (intros; decide)
          | (intros; simp_all)
  · intro scratchExists dryRun lockOk rsyncRes
    cases scratchExists <;> cases dryRun <;> cases lockOk
    all_goals cases rsyncRes
    all_goals
      simp only [run_push_one_var, Bool.false_eq_true, Bool.true_eq_false, if_true, if_false,
        ite_true, ite_false, reduceIte]
    all_goals
      refine ⟨?_, ?_, ?_, ?_, ?_⟩ <;>
        first
          | (intro h; exact absurd h (by decide))
          | (intro h; exact ⟨⟨_, rfl⟩, [Event.lockAcquired, Event.mkdirTarget], rfl⟩)
          | (intros; decide)
          | (intros; simp_all)

/-- Witness for C2: a missing source writes no marker, and a successful copy
writes one after the copy returned. -/
theorem marker_only_after_copy_success_witness :
    Event.markerWritten ∉
      (_sync_one_var false true (Except.ok false) false true (RsyncResult.ok []) ("/t")).1 ∧
    Event.markerWritten ∉ (run_push_one_var true true true (RsyncResult.ok [])).1 :=
  ⟨(marker_only_after_copy_success.1 false true (Except.ok false) false true
      (RsyncResult.ok []) ("/t")).2.1 rfl,
   (marker_only_after_copy_success.2 true true true (RsyncResult.ok [])).2.2.1 rfl⟩

/-! ## Lemmas about `successes` and the name sort -/

theorem mem_successes {outcomes : List (String × Except SyncErr String)}
    {n v : String} :
    (n, v) ∈ successes outcomes ↔ (n, Except.ok v) ∈ outcomes := by
  unfold successes
  rw [List.mem_filterMap]
  constructor
  · rintro ⟨⟨pn, pr⟩, hp, he⟩
    cases pr with
    | ok w =>
      simp only [Prod.mk.injEq, Option.some.injEq] at he
      rcases he with ⟨rfl, rfl⟩
      exact hp
    | error e => simp at he
  · intro h
    exact ⟨(n, Except.ok v), h, rfl⟩

theorem insertByName_perm (x : String × String) (l : List (String × String)) :
    List.Perm (insertByName x l) (x :: l) := by
  induction l with
  | nil => exact List.Perm.refl _
  | cons y ys ih =>
    unfold insertByName
    by_cases h : strLe x.1 y.1 = true
    · rw [if_pos h]
    · rw [if_neg h]
      exact (List.Perm.cons y ih).trans (List.Perm.swap x y ys)

theorem sortByName_perm (l : List (String × String)) :
    List.Perm (sortByName l) l := by
  induction l with
  | nil => exact List.Perm.refl _
  | cons x xs ih => exact (insertByName_perm x (sortByName xs)).trans (List.Perm.cons x ih)

/-- C4: a missing source is non-fatal: `_sync_one_var` raises nothing, logs
the warning, creates the empty target directory and returns the scratch
path, so the structured channel still gets an export line for the
resource. -/
theorem missing_source_nonfatal (force : Bool) (skipRes : Except PyExc Bool)
    (dryRun lockOk : Bool) (rsyncRes : RsyncResult) (target : String) :
    _sync_one_var false force skipRes dryRun lockOk rsyncRes target =
      ([Event.warnMissingSource, Event.mkdirTarget], Except.ok target) ∧
    ∀ (outcomes : List (String × Except SyncErr String)) (name : String),
      (name, Except.ok target) ∈ outcomes →
      exportLine name target ∈ run_sync_stdout outcomes := by
  refine ⟨rfl, ?_⟩
  intro outcomes name h
  unfold run_sync_stdout
  have h1 : (name, target) ∈ successes outcomes := mem_successes.mpr h
  have h2 : (name, target) ∈ sortByName (successes outcomes) :=
    ((sortByName_perm _).mem_iff).mpr h1
  exact List.mem_map.mpr ⟨(name, target), h2, rfl⟩

/-- Witness for C4: a run with one missing-source resource still emits its
export line. -/
theorem missing_source_nonfatal_witness :
    _sync_one_var false false (Except.ok false) false true (RsyncResult.ok []) ("/scr/X") =
      ([Event.warnMissingSource, Event.mkdirTarget], Except.ok ("/scr/X")) ∧
    exportLine ("X") ("/scr/X") ∈
      run_sync_stdout [(("X" : String), Except.ok ("/scr/X"))] :=
  ⟨(missing_source_nonfatal false (Except.ok false) false true (RsyncResult.ok []) ("/scr/X")).1,
   (missing_source_nonfatal false (Except.ok false) false true (RsyncResult.ok []) ("/scr/X")).2
     [(("X" : String), Except.ok ("/scr/X"))] ("X") (List.mem_singleton.mpr rfl)⟩

/-! ## Shell quoting -/

theorem replaceQuoteList_length (l : List Char) :
    l.length ≤ (replaceQuoteList l).length := by
  induction l with
  | nil => simp [replaceQuoteList]
  | cons c cs ih =>
    unfold replaceQuoteList
    by_cases h : c == squoteChar
    · rw [if_pos h]
      simp only [List.length_append, List.length_cons, quoteEscSeq]
      simp at ih ⊢
      omega
    · rw [if_neg h]
      simp only [List.length_append, List.length_cons]
      simp at ih ⊢
      omega

/-- C8: `_shell_quote` returns its input unchanged exactly when every
character is alphanumeric or one of `/`, `-`, `_`, `.`; otherwise it wraps
the input in single quotes with each embedded single quote replaced by
quote-backslash-quote-quote. -/
theorem shell_quote_spec (s : String) :
    (_shell_quote s = s ↔ s.data.all isSafeChar = true) ∧
    (s.data.all isSafeChar = false →
      _shell_quote s = squote ++ String.mk (replaceQuoteList s.data) ++ squote) := by
  by_cases h : s.data.all isSafeChar = true
  · constructor
    · constructor
      · intro _; exact h
      · intro _; simp [_shell_quote, h]
    · intro hf; rw [h] at hf; cases hf
  · have hfalse : s.data.all isSafeChar = false := by
      cases hall : s.data.all isSafeChar
      · rfl
      · exact absurd hall h
    have hq : _shell_quote s = squote ++ String.mk (replaceQuoteList s.data) ++ squote := by
      simp [_shell_quote, hfalse]
    refine ⟨⟨?_, ?_⟩, fun _ => hq⟩
    · intro heq
      exfalso
      rw [hq] at heq
      have hlen := congrArg String.length heq
      rw [String.length_append, String.length_append] at hlen
      have h1 : squote.length = 1 := rfl
      have h2 : (String.mk (replaceQuoteList s.data)).length =
          (replaceQuoteList s.data).length := rfl
      have h3 : s.length = s.data.length := rfl
      have h4 := replaceQuoteList_length s.data
      omega
    · intro ht; exact absurd ht h

/-- Witness for C8: a safe path passes through; a string with a space gets
quoted. -/
theorem shell_quote_spec_witness :
    _shell_quote ("/scratch/cache_a.1") = "/scratch/cache_a.1" ∧
    _shell_quote ("a b") = squote ++ String.mk (replaceQuoteList ("a b").data) ++ squote :=
  ⟨(shell_quote_spec ("/scratch/cache_a.1")).1.mpr (by decide),
   (shell_quote_spec ("a b")).2 (by decide)⟩

/-! ## Copy Invoker argument contract -/

theorem takeWhile_dropWhile_nil {α : Type} (p : α → Bool) (l : List α) :
    (l.dropWhile p).takeWhile p = [] := by
  induction l with
  | nil => rfl
  | cons c cs ih =>
    rw [List.dropWhile_cons]
    by_cases h : p c = true
    · rw [if_pos h]; exact ih
    · rw [if_neg h]
      simp [List.takeWhile_cons, h]

theorem data_rstripSlash (s : String) :
    (rstripSlash s).data =
      (s.data.reverse.dropWhile (fun c => c == ('/' : Char))).reverse := rfl

/-- The source and target arguments end in exactly one path separator. -/
theorem trailingSlashCount_rstrip (s : String) :
    trailingSlashCount (rstripSlash s ++ "/") = 1 := by
  unfold trailingSlashCount
  rw [String.data_append]
  have hslash : (("/" : String)).data = [('/' : Char)] := rfl
  rw [hslash, List.reverse_append]
  simp only [List.reverse_cons, List.reverse_nil, List.nil_append, List.singleton_append]
  rw [data_rstripSlash, List.reverse_reverse, List.takeWhile_cons]
  simp only [beq_self_eq_true, if_true, ite_true]
  rw [takeWhile_dropWhile_nil]
  rfl

theorem one_le_trailing_append_slash (x : String) :
    1 ≤ trailingSlashCount (x ++ "/") := by
  unfold trailingSlashCount
  rw [String.data_append]
  have hslash : (("/" : String)).data = [('/' : Char)] := rfl
  rw [hslash, List.reverse_append]
  simp only [List.reverse_cons, List.reverse_nil, List.nil_append, List.singleton_append]
  rw [List.takeWhile_cons]
  simp

theorem ne_delete_slash (x : String) : ¬(("--delete" : String) = x ++ "/") := by
  intro h
  have h1 := one_le_trailing_append_slash x
  rw [← h] at h1
  have h2 : trailingSlashCount ("--delete") = 0 := by decide
  omega

/-- C9: the built command always carries the archive flag, ends with the
source then target arguments each bearing exactly one trailing separator
(identically with and without `delete`), and the builder adds the
`--delete` flag exactly when `delete` is true. -/
theorem rsync_cmd_contract (source target : String) (extraArgs : List String)
    (verbose delete : Bool) :
    (∃ pre, run_rsync_cmd source target extraArgs verbose delete =
      pre ++ [rstripSlash source ++ "/", rstripSlash target ++ "/"]) ∧
    trailingSlashCount (rstripSlash source ++ "/") = 1 ∧
    ("-a" : String) ∈ run_rsync_cmd source target extraArgs verbose delete ∧
    (run_rsync_cmd source target extraArgs verbose delete).count ("--delete") =
      (if delete then 1 else 0) + extraArgs.count ("--delete") ∧
    (("--delete" : String) ∉ extraArgs →
      ((("--delete" : String) ∈ run_rsync_cmd source target extraArgs verbose delete) ↔
        delete = true)) := by
  have hpair : ([rstripSlash source ++ "/", rstripSlash target ++ "/"] :
      List String).count ("--delete") = 0 := by
    rw [List.count_eq_zero]
    intro hm
    rcases List.mem_cons.mp hm with h | h
    · exact ne_delete_slash _ h
    · rcases List.mem_cons.mp h with h2 | h2
      · exact ne_delete_slash _ h2
      · simp at h2
  have hbase : (["rsync", "-a", "--info=progress2", "--info=name0",
      "--human-readable"] : List String).count ("--delete") = 0 := by decide
  have hverb : (["--verbose"] : List String).count ("--delete") = 0 := by decide
  have hdel : (["--delete"] : List String).count ("--delete") = 1 := by decide
  have hcnt : (run_rsync_cmd source target extraArgs verbose delete).count ("--delete") =
      (if delete then 1 else 0) + extraArgs.count ("--delete") := by
    cases delete <;> cases verbose <;>
      simp [run_rsync_cmd, List.count_append, hpair, hbase, hverb, hdel] <;>
      omega
  refine ⟨⟨_, rfl⟩, trailingSlashCount_rstrip source, ?_, hcnt, ?_⟩
  · cases delete <;> cases verbose <;> simp [run_rsync_cmd]
  · intro hne
    have hce : extraArgs.count ("--delete") = 0 := List.count_eq_zero.mpr hne
    constructor
    · intro hmem
      cases hd : delete
      · exfalso
        have h0 : (run_rsync_cmd source target extraArgs verbose delete).count
            ("--delete") = 0 := by
          rw [hcnt, hd, hce]
          simp
        exact (List.count_eq_zero.mp h0) hmem
      · rfl
    · intro hd
      have h1 : (run_rsync_cmd source target extraArgs verbose delete).count
          ("--delete") = 1 + extraArgs.count ("--delete") := by
        rw [hcnt, hd]
        simp
      by_contra hnm
      rw [List.count_eq_zero.mpr hnm] at h1
      omega

/-- Witness for C9: with `delete` and no extra args the flag is present, and
the source argument carries exactly one trailing separator. -/
theorem rsync_cmd_contract_witness :
    ("--delete" : String) ∈ run_rsync_cmd ("/data/src") ("/scr/tgt") [] false true ∧
    trailingSlashCount (rstripSlash ("/data/src") ++ "/") = 1 :=
  ⟨((rsync_cmd_contract ("/data/src") ("/scr/tgt") [] false true).2.2.2.2
      (by decide)).mpr rfl,
   (rsync_cmd_contract ("/data/src") ("/scr/tgt") [] false true).2.1⟩

/-! ## The structured stdout channel -/

theorem char_toNat_inj {c d : Char} (h : c.toNat = d.toNat) : c = d :=
  StrictMono.injective (f := Char.toNat) (fun _ _ hh => hh) h

theorem strLeList_head_le {x y : Char} {xs ys : List Char}
    (h : strLeList (x :: xs) (y :: ys) = true) : x.toNat ≤ y.toNat := by
  unfold strLeList at h
  by_cases h1 : x.toNat < y.toNat
  · omega
  · rw [if_neg h1] at h
    by_cases h2 : y.toNat < x.toNat
    · rw [if_pos h2] at h; cases h
    · omega

theorem strLeList_total (a : List Char) : ∀ b : List Char,
    strLeList a b = true ∨ strLeList b a = true := by
  induction a with
  | nil => intro b; left; rfl
  | cons c cs ih =>
    intro b
    cases b with
    | nil => right; rfl
    | cons d ds =>
      unfold strLeList
      by_cases h1 : c.toNat < d.toNat
      · left; rw [if_pos h1]
      · by_cases h2 : d.toNat < c.toNat
        · right; rw [if_pos h2]
        · rcases ih ds with h | h
          · left; rw [if_neg h1, if_neg h2]; exact h
          · right; rw [if_neg h2, if_neg h1]; exact h

theorem strLeList_trans {a : List Char} : ∀ {b c : List Char},
    strLeList a b = true → strLeList b c = true → strLeList a c = true := by
  induction a with
  | nil => intro b c _ _; rfl
  | cons x xs ih =>
    intro b c h1 h2
    cases b with
    | nil => cases h1
    | cons y ys =>
      cases c with
      | nil => cases h2
      | cons z zs =>
        have hxy := strLeList_head_le h1
        have hyz := strLeList_head_le h2
        unfold strLeList
        by_cases hxz : x.toNat < z.toNat
        · rw [if_pos hxz]
        · rw [if_neg hxz]
          have hzx : ¬ z.toNat < x.toNat := by omega
          rw [if_neg hzx]
          have hex : x.toNat = y.toNat := by omega
          have hey : y.toNat = z.toNat := by omega
          unfold strLeList at h1 h2
          rw [if_neg (by omega), if_neg (by omega)] at h1
          rw [if_neg (by omega), if_neg (by omega)] at h2
          exact ih h1 h2

theorem strLeList_antisymm {a : List Char} : ∀ {b : List Char},
    strLeList a b = true → strLeList b a = true → a = b := by
  induction a with
  | nil =>
    intro b h1 h2
    cases b with
    | nil => rfl
    | cons d ds => cases h2
  | cons c cs ih =>
    intro b h1 h2
    cases b with
    | nil => cases h1
    | cons d ds =>
      have hcd := strLeList_head_le h1
      have hdc := strLeList_head_le h2
      have he : c = d := char_toNat_inj (by omega)
      subst he
      unfold strLeList at h1 h2
      rw [if_neg (by omega), if_neg (by omega)] at h1
      rw [if_neg (by omega), if_neg (by omega)] at h2
      rw [ih h1 h2]

theorem strLe_trans {a b c : String} (h1 : strLe a b = true)
    (h2 : strLe b c = true) : strLe a c = true :=
  strLeList_trans h1 h2

theorem strLe_total (a b : String) : strLe a b = true ∨ strLe b a = true :=
  strLeList_total a.data b.data

theorem insertByName_pairwise (x : String × String) (l : List (String × String))
    (h : l.Pairwise (fun p q => strLe p.1 q.1 = true)) :
    (insertByName x l).Pairwise (fun p q => strLe p.1 q.1 = true) := by
  induction l with
  | nil => simp [insertByName]
  | cons y ys ih =>
    rcases List.pairwise_cons.mp h with ⟨hy, hys⟩
    unfold insertByName
    by_cases hxy : strLe x.1 y.1 = true
    · rw [if_pos hxy]
      refine List.pairwise_cons.mpr ⟨?_, h⟩
      intro z hz
      rcases List.mem_cons.mp hz with rfl | hz
      · exact hxy
      · exact strLe_trans hxy (hy z hz)
    · rw [if_neg hxy]
      refine List.pairwise_cons.mpr ⟨?_, ih hys⟩
      intro z hz
      have hz' := (insertByName_perm x ys).mem_iff.mp hz
      rcases List.mem_cons.mp hz' with rfl | hz'
      · rcases strLe_total z.1 y.1 with hzy | hyz
        · exact absurd hzy hxy
        · exact hyz
      · exact hy z hz'

theorem sortByName_pairwise (l : List (String × String)) :
    (sortByName l).Pairwise (fun p q => strLe p.1 q.1 = true) := by
  induction l with
  | nil => simp [sortByName]
  | cons x xs ih => exact insertByName_pairwise x (sortByName xs) ih

theorem sortByName_pairwise_lt (l : List (String × String))
    (h : (l.map Prod.fst).Nodup) :
    (sortByName l).Pairwise (fun p q => strLt p.1 q.1 = true) := by
  have hperm := sortByName_perm l
  have hnd : ((sortByName l).map Prod.fst).Nodup :=
    ((hperm.map Prod.fst).nodup_iff).mpr h
  have hne : (sortByName l).Pairwise (fun p q => p.1 ≠ q.1) :=
    List.pairwise_map.mp hnd
  have hle := sortByName_pairwise l
  refine (hle.and hne).imp ?_
  intro p q hpq
  have hbeq : (p.1 == q.1) = false := beq_eq_false_iff_ne.mpr hpq.2
  simp [strLt, hpq.1, hbeq]
theorem successes_fst_sublist (outcomes : List (String × Except SyncErr String)) :
    List.Sublist ((successes outcomes).map Prod.fst) (outcomes.map Prod.fst) := by
  induction outcomes with
  | nil => simp [successes]
  | cons p rest ih =>
    obtain ⟨n, r⟩ := p
    cases r with
    | ok v =>
      simp only [successes, List.filterMap_cons, List.map_cons] at ih ⊢
      exact List.Sublist.cons₂ n ih
    | error e =>
      simp only [successes, List.filterMap_cons, List.map_cons] at ih ⊢
      exact List.Sublist.cons n ih

theorem nodup_key_value_eq {l : List (String × Except SyncErr String)}
    (h : (l.map Prod.fst).Nodup) {n : String} {a b : Except SyncErr String}
    (ha : (n, a) ∈ l) (hb : (n, b) ∈ l) : a = b := by
  induction l with
  | nil => cases ha
  | cons p rest ih =>
    have h1 : p.1 ∉ rest.map Prod.fst := (List.nodup_cons.mp (by simpa using h)).1
    have h2 : (rest.map Prod.fst).Nodup := (List.nodup_cons.mp (by simpa using h)).2
    rcases List.mem_cons.mp ha with rfl | ha'
    · rcases List.mem_cons.mp hb with heq | hb'
      · have h3 := heq
        rw [Prod.mk.injEq] at h3
        exact h3.2.symm
      · exact absurd (List.mem_map_of_mem Prod.fst hb') h1
    · rcases List.mem_cons.mp hb with rfl | hb'
      · exact absurd (List.mem_map_of_mem Prod.fst ha') h1
      · exact ih h2 ha' hb'

theorem eqfree_append_inj {a : List Char} : ∀ {b u v : List Char},
    ('=' : Char) ∉ a → ('=' : Char) ∉ b →
    a ++ ('=' : Char) :: u = b ++ ('=' : Char) :: v → a = b ∧ u = v := by
  induction a with
  | nil =>
    intro b u v _ hb h
    cases b with
    | nil => simpa using h
    | cons d ds =>
      simp only [List.nil_append, List.cons_append] at h
      injection h with h1 h2
      subst h1
      exact absurd (List.mem_cons_self _ _) hb
  | cons c cs ih =>
    intro b u v ha hb h
    cases b with
    | nil =>
      simp only [List.nil_append, List.cons_append] at h
      injection h with h1 h2
      subst h1
      exact absurd (List.mem_cons_self _ _) ha
    | cons d ds =>
      simp only [List.cons_append] at h
      injection h with h1 h2
      subst h1
      have hr := ih (fun hm => ha (List.mem_cons_of_mem _ hm))
        (fun hm => hb (List.mem_cons_of_mem _ hm)) h2
      exact ⟨by rw [hr.1], hr.2⟩

theorem exportLine_name_inj {n nn v vv : String}
    (hn : ('=' : Char) ∉ n.data) (hnn : ('=' : Char) ∉ nn.data)
    (h : exportLine n v = exportLine nn vv) : n = nn := by
  unfold exportLine at h
  have hd := congrArg String.data h
  simp only [String.data_append, List.append_assoc] at hd
  simp only [List.singleton_append] at hd
  have hcancel := List.append_cancel_left hd
  have := eqfree_append_inj hn hnn hcancel
  exact String.ext this.1

theorem count_map_exportLine (l : List (String × String)) (n p : String)
    (hnd : (l.map Prod.fst).Nodup) (hmem : (n, p) ∈ l)
    (hinj : ∀ q ∈ l, q.1 ≠ n → exportLine q.1 q.2 ≠ exportLine n p) :
    (l.map (fun q => exportLine q.1 q.2)).count (exportLine n p) = 1 := by
  induction l with
  | nil => cases hmem
  | cons x rest ih =>
    have h1 : x.1 ∉ rest.map Prod.fst := (List.nodup_cons.mp (by simpa using hnd)).1
    have h2 : (rest.map Prod.fst).Nodup := (List.nodup_cons.mp (by simpa using hnd)).2
    rcases List.mem_cons.mp hmem with rfl | hmem'
    · have hz : (rest.map (fun q => exportLine q.1 q.2)).count (exportLine n p) = 0 := by
        rw [List.count_eq_zero]
        intro hc
        rcases List.mem_map.mp hc with ⟨q, hq, he⟩
        have hqn : q.1 ≠ n := by
          intro hq1
          have hmm : Prod.fst q ∈ List.map Prod.fst rest :=
            List.mem_map_of_mem Prod.fst hq
          rw [hq1] at hmm
          exact h1 hmm
        exact hinj q (List.mem_cons_of_mem _ hq) hqn he
      simp [List.count_cons, hz]
    · have hxn : x.1 ≠ n := by
        intro hx
        refine h1 ?_
        rw [hx]
        exact List.mem_map_of_mem Prod.fst hmem'
      have hne : exportLine x.1 x.2 ≠ exportLine n p :=
        hinj x (List.mem_cons_self _ _) hxn
      have hbeq : (exportLine x.1 x.2 == exportLine n p) = false :=
        beq_eq_false_iff_ne.mpr hne
      simp only [List.map_cons, List.count_cons, hbeq, if_false, ite_false]
      rw [ih h2 hmem' (fun q hq => hinj q (List.mem_cons_of_mem _ hq))]
      simp
/-- C3: for any run, the structured stdout channel carries exactly one
well-formed `export NAME=value` line per resource whose processing returned
a path, zero lines for resources whose processing raised, in strictly
ascending name order whatever the completion order was, and nothing else
(hypotheses: resource names are distinct — they are dict keys — and contain
no `=`, as environment variable names). -/
theorem structured_stdout_contract
    (outcomes : List (String × Except SyncErr String))
    (hnodup : (outcomes.map Prod.fst).Nodup)
    (hnames : ∀ q ∈ outcomes, ('=' : Char) ∉ q.1.data) :
    (∀ name val, (name, Except.ok val) ∈ outcomes →
      (run_sync_stdout outcomes).count (exportLine name val) = 1) ∧
    (∀ name e, (name, Except.error e) ∈ outcomes →
      ∀ val, exportLine name val ∉ run_sync_stdout outcomes) ∧
    (∀ line ∈ run_sync_stdout outcomes, ∃ name val,
      line = exportLine name val ∧ (name, Except.ok val) ∈ outcomes) ∧
    (sortByName (successes outcomes)).Pairwise (fun p q => strLt p.1 q.1 = true) ∧
    run_sync_stdout outcomes =
      (sortByName (successes outcomes)).map (fun p => exportLine p.1 p.2) := by
  have hsnd : ((successes outcomes).map Prod.fst).Nodup :=
    hnodup.sublist (successes_fst_sublist outcomes)
  have hperm := sortByName_perm (successes outcomes)
  refine ⟨?_, ?_, ?_, sortByName_pairwise_lt _ hsnd, rfl⟩
  · intro name val h
    have hm : (name, val) ∈ successes outcomes := mem_successes.mpr h
    unfold run_sync_stdout
    rw [(hperm.map (fun p => exportLine p.1 p.2)).count_eq]
    refine count_map_exportLine _ _ _ hsnd hm ?_
    intro q hq hqne
    obtain ⟨qn, qv⟩ := q
    intro he
    exact hqne (exportLine_name_inj
      (hnames _ (mem_successes.mp hq)) (hnames _ h) he)
  · intro name e h val hmem
    unfold run_sync_stdout at hmem
    rcases List.mem_map.mp hmem with ⟨q, hq, he⟩
    obtain ⟨qn, qv⟩ := q
    have hq' : (qn, qv) ∈ successes outcomes := hperm.mem_iff.mp hq
    have hqo : (qn, Except.ok qv) ∈ outcomes := mem_successes.mp hq'
    have hne : qn = name :=
      exportLine_name_inj (hnames _ hqo) (hnames _ h) he
    subst hne
    have := nodup_key_value_eq hnodup hqo h
    cases this
  · intro line hline
    rcases List.mem_map.mp hline with ⟨q, hq, rfl⟩
    exact ⟨q.1, q.2, rfl, mem_successes.mp (hperm.mem_iff.mp hq)⟩

/-- Witness for C3 at a three-resource run finishing out of name order with
one failure. -/
theorem structured_stdout_contract_witness :
    (run_sync_stdout [(("B" : String), Except.ok ("/s/B")),
      (("A" : String), Except.ok ("/s/A")),
      (("C" : String), Except.error SyncErr.lockTimeoutErr)]).count
      (exportLine ("A") ("/s/A")) = 1 ∧
    exportLine ("C") ("/x") ∉ run_sync_stdout [(("B" : String), Except.ok ("/s/B")),
      (("A" : String), Except.ok ("/s/A")),
      (("C" : String), Except.error SyncErr.lockTimeoutErr)] :=
  ⟨(structured_stdout_contract
      [(("B" : String), Except.ok ("/s/B")), (("A" : String), Except.ok ("/s/A")),
       (("C" : String), Except.error SyncErr.lockTimeoutErr)]
      (by decide) (by decide)).1 ("A") ("/s/A") (by simp),
   (structured_stdout_contract
      [(("B" : String), Except.ok ("/s/B")), (("A" : String), Except.ok ("/s/A")),
       (("C" : String), Except.error SyncErr.lockTimeoutErr)]
      (by decide) (by decide)).2.1 ("C") SyncErr.lockTimeoutErr (by simp) ("/x")⟩

/-! ## Lock Manager: bounded poll loop -/

theorem lockLoop_run (path : String) (timeout poll : ℚ) (trace : ℕ → ℚ) :
    ∀ (k start fuel : ℕ), (∀ j, j < k → trace (start + j) < timeout) →
    timeout ≤ trace (start + k) → k < fuel →
    lockLoop path timeout poll trace start fuel =
      ((List.range k).map (fun j => min poll (timeout - trace (start + j))),
       some { path := path, timeout := timeout }) := by
  intro k
  induction k with
  | zero =>
    intro start fuel hlt hge hfuel
    cases fuel with
    | zero => omega
    | succ f =>
      have hge2 : timeout ≤ trace start := by simpa using hge
      simp [lockLoop, hge2]
  | succ k ih =>
    intro start fuel hlt hge hfuel
    cases fuel with
    | zero => omega
    | succ f =>
      have h0 : trace start < timeout := by simpa using hlt 0 (by omega)
      have hnot : ¬ timeout ≤ trace start := not_le.mpr h0
      have hrec := ih (start + 1) f
        (fun j hj => by
          have h := hlt (j + 1) (by omega)
          have heq : start + (j + 1) = start + 1 + j := by omega
          rwa [heq] at h)
        (by
          have heq : start + (k + 1) = start + 1 + k := by omega
          rwa [heq] at hge)
        (by omega)
      have hfun : ∀ j : ℕ, start + 1 + j = start + (j + 1) := fun j => by omega
      simp only [lockLoop, if_neg hnot, hrec, List.range_succ_eq_map, List.map_cons,
        List.map_map]
      simp [Function.comp, hfun]

/-- C6: when every non-blocking acquisition attempt fails, the poll loop of
`acquire_lock` raises `LockTimeout` (carrying the lock path and the timeout
value) at the first attempt whose elapsed time reaches the timeout; that
attempt comes within `⌈timeout/poll⌉` iterations, so the loop never runs
forever, and every sleep it requests is bounded by the poll interval and by
the remaining time.  `trace k` is the elapsed time observed at the `k`-th
failed attempt; the hypothesis on `trace` reflects that `time.sleep(wait)`
lets at least `wait` elapse between attempts. -/
theorem acquire_lock_timeout_bounded (path : String) (timeout poll : ℚ)
    (trace : ℕ → ℚ) (hpoll : 0 < poll) (h0 : 0 ≤ trace 0)
    (hstep : ∀ k, trace k < timeout →
      trace k + min poll (timeout - trace k) ≤ trace (k + 1)) :
    ∃ k, k ≤ (⌈timeout / poll⌉).toNat ∧
      (∀ j, j < k → trace j < timeout) ∧ timeout ≤ trace k ∧
      (∀ fuel, k < fuel → lockLoop path timeout poll trace 0 fuel =
        ((List.range k).map (fun j => min poll (timeout - trace j)),
         some { path := path, timeout := timeout })) ∧
      (∀ j, j < k → min poll (timeout - trace j) ≤ poll ∧
        min poll (timeout - trace j) ≤ timeout - trace j) := by
  have hex : ∃ n, timeout ≤ trace n := by
    by_contra hno
    push_neg at hno
    have hgrow : ∀ j : ℕ, (j : ℚ) * poll ≤ trace j := by
      intro j
      induction j with
      | zero => simpa using h0
      | succ j ihj =>
        have hs := hstep j (hno j)
        rcases le_total poll (timeout - trace j) with hmin | hmin
        · rw [min_eq_left hmin] at hs
          push_cast
          nlinarith [ihj, hs]
        · rw [min_eq_right hmin] at hs
          exfalso
          have := hno (j + 1)
          linarith
    obtain ⟨n, hn⟩ := exists_nat_gt (timeout / poll)
    rw [div_lt_iff₀ hpoll] at hn
    have hg := hgrow n
    have hl := hno n
    linarith
  have hkge : timeout ≤ trace (Nat.find hex) := Nat.find_spec hex
  have hklt : ∀ j, j < Nat.find hex → trace j < timeout :=
    fun j hj => not_le.mp (Nat.find_min hex hj)
  have hbound : Nat.find hex ≤ (⌈timeout / poll⌉).toNat := by
    rcases Nat.eq_zero_or_pos (Nat.find hex) with hk0 | hkpos
    · simp [hk0]
    · have hgrow : ∀ j, j < Nat.find hex → (j : ℚ) * poll ≤ trace j := by
        intro j
        induction j with
        | zero => intro _; simpa using h0
        | succ j ihj =>
          intro hj
          have hjk : j < Nat.find hex := by omega
          have ihj2 := ihj hjk
          have hs := hstep j (hklt j hjk)
          rcases le_total poll (timeout - trace j) with hmin | hmin
          · rw [min_eq_left hmin] at hs
            push_cast
            nlinarith [ihj2, hs]
          · rw [min_eq_right hmin] at hs
            exfalso
            have := hklt (j + 1) hj
            linarith
      have hk1 : Nat.find hex - 1 < Nat.find hex := by omega
      have hg := hgrow (Nat.find hex - 1) hk1
      have hl := hklt (Nat.find hex - 1) hk1
      have hq : ((Nat.find hex - 1 : ℕ) : ℚ) < timeout / poll := by
        rw [lt_div_iff₀ hpoll]
        linarith
      have hz : ((Nat.find hex - 1 : ℕ) : ℤ) < ⌈timeout / poll⌉ := by
        have h1 : ((Nat.find hex - 1 : ℕ) : ℚ) < ((⌈timeout / poll⌉ : ℤ) : ℚ) :=
          lt_of_lt_of_le hq (Int.le_ceil _)
        exact_mod_cast h1
      omega
  refine ⟨Nat.find hex, hbound, hklt, hkge, ?_, ?_⟩
  · intro fuel hf
    have h := lockLoop_run path timeout poll trace (Nat.find hex) 0 fuel
      (fun j hj => by simpa using hklt j hj) (by simpa using hkge) hf
    simpa using h
  · intro j _
    exact ⟨min_le_left _ _, min_le_right _ _⟩

/-- Witness for C6: timeout 1 and poll interval 1 with an exact clock; the
loop raises at the second attempt, after one bounded sleep. -/
theorem acquire_lock_timeout_bounded_witness :
    ∃ k, k ≤ (⌈(1 : ℚ) / 1⌉).toNat ∧
      (∀ j, j < k → ((j : ℚ)) < 1) ∧ (1 : ℚ) ≤ (k : ℚ) ∧
      (∀ fuel, k < fuel → lockLoop ("/scr/.HF.lock") 1 1 (fun j => (j : ℚ)) 0 fuel =
        ((List.range k).map (fun (j : ℕ) => min 1 (1 - (j : ℚ))),
         some { path := ("/scr/.HF.lock" : String), timeout := 1 })) ∧
      (∀ j, j < k → min 1 (1 - (j : ℚ)) ≤ 1 ∧
        min 1 (1 - (j : ℚ)) ≤ 1 - (j : ℚ)) :=
  acquire_lock_timeout_bounded ("/scr/.HF.lock") 1 1 (fun j => (j : ℚ))
    (by norm_num) (by norm_num)
    (by
      intro k hk
      have hk0 : k = 0 := by
        have := Nat.cast_lt_one.mp (by exact_mod_cast hk)
        omega
      subst hk0
      norm_num)

end EulerFiles
